import Mathlib

/-!
Shallow embedding of the `async_pool` crate (`src/lib.rs`).

Resources are identified by natural numbers (the pool never inspects the
values it stores, so only identity matters).  The unbounded mpsc channel
backing `AsyncPool<T>` is modelled by its buffer, a FIFO `List Resource`:
senders append at the back, the receiver takes from the front.

Modelling conventions:
* a panic (`expect` / `unwrap`) is an `Except.error` carrying the panic
  message;
* a suspension point that is still pending (`rx.next().await` on an empty
  buffer) is `Option.none` — pending, not an error;
* the `tx` closure captured by a guard is modelled at the call site by the
  liveness of the receiving end (`alive : Bool`): `unbounded_send` on a
  channel whose receiver has been dropped fails, and the guard closure
  turns that failure into a panic;
* concurrency is modelled as a sequential interleaving of operations: in
  the source every dequeue happens under the write lock on `rx`, so
  dequeues are serialized, and pushes are atomic single enqueues.
-/

namespace AsyncPool

/-- Identity of a resource instance stored in the pool. -/
abbrev Resource := Nat

/-- `AsyncPoolGuard<T>`: `inner` is the `Option<T>` slot holding the
borrowed resource; the send-back closure `tx` is modelled at each use
site by the pool-alive flag. -/
structure AsyncPoolGuard where
  inner : Option Resource
  deriving DecidableEq

/-- `UnboundedSender::unbounded_send`: appends at the back of the channel
buffer; returns an error iff the receiving end has been dropped. -/
def unbounded_send (alive : Bool) (q : List Resource) (r : Resource) :
    Except String (List Resource) :=
  if alive then .ok (q ++ [r]) else .error "channel closed"

/-- `AsyncPool::new`: the channel buffer starts empty. -/
def new : List Resource := []

/-- `AsyncPool::add`: `self.tx.send(item).await.unwrap()`.  The pool owns
the receiver, so the send cannot fail and the unwrap is safe; the item is
enqueued at the back. -/
def add (q : List Resource) (item : Resource) : List Resource :=
  q ++ [item]

/-- `AsyncPool::new_with`: drains the initial vector in order, awaiting
`add` for each element. -/
def new_with (initial_resources : List Resource) : List Resource :=
  initial_resources.foldl add new

/-- Result of polling `rx.next()` on the receiver of the channel:
an item is ready, or the buffer is empty and some sender is still live
(the future stays pending), or the buffer is empty and every sender has
been dropped (the stream is closed and `next` yields `None`). -/
inductive PollNext where
  | ready (r : Resource) (rest : List Resource)
  | pending
  | closed
  deriving DecidableEq

/-- Poll of `rx.next()` given the buffer and the number of live senders. -/
def stream_next (q : List Resource) (senders : Nat) : PollNext :=
  match q with
  | r :: rest => .ready r rest
  | [] => if senders = 0 then .closed else .pending

/-- `AsyncPool::rsvp`: clones the sender, takes the write lock on the
receiver, and awaits `rx.next()`.  `none` models the suspended state (the
buffer is empty and the caller is parked); on a non-empty buffer the front
item is removed and wrapped in a fresh guard. -/
def rsvp (q : List Resource) : Option (AsyncPoolGuard × List Resource) :=
  match q with
  | [] => none
  | r :: rest => some ({ inner := some r }, rest)

/-- `Drop for AsyncPoolGuard`: `self.inner.take()` followed, when a value
was present, by the captured closure
`tx.unbounded_send(x).expect("Pool was dropped before guard")`. -/
def guard_drop (alive : Bool) (g : AsyncPoolGuard) (q : List Resource) :
    Except String (AsyncPoolGuard × List Resource) :=
  match g.inner with
  | some i =>
      match unbounded_send alive q i with
      | .ok q2 => .ok ({ inner := none }, q2)
      | .error _ => .error "Pool was dropped before guard"
  | none => .ok (g, q)

/-- `Deref for AsyncPoolGuard`:
`self.inner.as_ref().expect("Inner value dropped while Guard was active")`. -/
def deref (g : AsyncPoolGuard) : Except String Resource :=
  match g.inner with
  | some r => .ok r
  | none => .error "Inner value dropped while Guard was active"

/-- `DerefMut for AsyncPoolGuard`: same access path as `deref`, through
`self.inner.as_mut()`. -/
def deref_mut (g : AsyncPoolGuard) : Except String Resource :=
  match g.inner with
  | some r => .ok r
  | none => .error "Inner value dropped while Guard was active"

/-- One reserve immediately followed by dropping the obtained guard, on a
live pool.  If the queue is empty the reserve suspends forever and the
buffer is left as is. -/
def roundTrip (q : List Resource) : List Resource :=
  match rsvp q with
  | none => q
  | some (g, q2) =>
      match guard_drop true g q2 with
      | .ok (_, q3) => q3
      | .error _ => q2

/-- `roundTrip` iterated `n` times. -/
def roundTripN : Nat → List Resource → List Resource
  | 0, q => q
  | n + 1, q => roundTripN n (roundTrip q)

/-- `n` sequential reserves: returns the resources obtained, in order, and
the remaining buffer.  A reserve on an empty buffer suspends, so the
sequence stops there. -/
def rsvpN : Nat → List Resource → (List Resource × List Resource)
  | 0, q => ([], q)
  | n + 1, q =>
      match rsvp q with
      | none => ([], q)
      | some (g, q2) =>
          match g.inner with
          | some r =>
              let p := rsvpN n q2
              (r :: p.1, p.2)
          | none => rsvpN n q2

/-! ### Trace-level model

`PoolSys` is the observable state of one pool together with every guard it
has issued: `queue` is the channel buffer and `guards` lists the `inner`
slot of each guard in creation order (a slot becomes `none` once the guard
has released its resource).  `Op` is one atomic interaction: an `add`, a
reserve that was served (a reserve finding the buffer empty suspends and
changes nothing), or the drop of guard `i`. -/

structure PoolSys where
  queue : List Resource
  guards : List (Option Resource)
  deriving DecidableEq

/-- One atomic operation on a live pool. -/
inductive Op where
  | add (r : Resource)
  | rsvp
  | drop (i : Nat)
  deriving DecidableEq

/-- Resources currently held by live guards, in guard-creation order. -/
def held (s : PoolSys) : List Resource :=
  s.guards.filterMap id

/-- Small-step semantics of one operation on a live pool, mirroring
`add`, `rsvp` and `Drop for AsyncPoolGuard` from the source. -/
def step (s : PoolSys) : Op → PoolSys
  | .add r => { s with queue := add s.queue r }
  | .rsvp =>
      match rsvp s.queue with
      | none => s
      | some (g, rest) => { queue := rest, guards := s.guards ++ [g.inner] }
  | .drop i =>
      match s.guards[i]? with
      | some (some r) =>
          { queue := add s.queue r, guards := s.guards.set i none }
      | _ => s

/-- Run a sequence of operations from a given state. -/
def runFrom (s : PoolSys) (ops : List Op) : PoolSys :=
  ops.foldl step s

/-- Run a sequence of operations on a pool seeded via `new_with`. -/
def run (initial : List Resource) (ops : List Op) : PoolSys :=
  runFrom { queue := new_with initial, guards := [] } ops

/-- Resources added by the `add` operations of a trace, in order. -/
def addedOf (ops : List Op) : List Resource :=
  ops.filterMap fun o =>
    match o with
    | .add r => some r
    | _ => none

/-! ### Helper lemmas -/

theorem foldl_add_eq_append (rs acc : List Resource) :
    rs.foldl add acc = acc ++ rs := by
  induction rs generalizing acc with
  | nil => simp
  | cons a rs ih => simp [add, ih]

theorem new_with_eq (rs : List Resource) : new_with rs = rs := by
  simp [new_with, new, foldl_add_eq_append]

theorem rsvpN_take_drop (n : Nat) (q : List Resource) :
    rsvpN n q = (q.take n, q.drop n) := by
  induction n generalizing q with
  | zero => simp [rsvpN]
  | succ n ih =>
    cases q with
    | nil => simp [rsvpN, rsvp]
    | cons a q => simp [rsvpN, rsvp, ih]

theorem roundTrip_eq_rotate (q : List Resource) :
    roundTrip q = q.rotate 1 := by
  cases q with
  | nil => simp [roundTrip, rsvp]
  | cons a q =>
    simp [roundTrip, rsvp, guard_drop, unbounded_send, List.rotate_cons_succ]

theorem roundTripN_eq_rotate (n : Nat) (q : List Resource) :
    roundTripN n q = q.rotate n := by
  induction n generalizing q with
  | zero => simp [roundTripN]
  | succ n ih =>
    rw [roundTripN, ih, roundTrip_eq_rotate, List.rotate_rotate,
      Nat.add_comm]

theorem held_set_none (gs : List (Option Resource)) (i : Nat) (r : Resource)
    (h : gs[i]? = some (some r)) :
    (r :: (gs.set i none).filterMap id).Perm (gs.filterMap id) := by
  induction gs generalizing i with
  | nil => simp at h
  | cons a gs ih =>
    cases i with
    | zero =>
      simp at h
      subst h
      simp
    | succ i =>
      simp at h
      cases a with
      | none =>
        simpa using ih i h
      | some b =>
        simpa using ((List.Perm.swap b r _).trans ((ih i h).cons b))

theorem getElem?_set_none (gs : List (Option Resource)) (i : Nat)
    (r : Resource) (h : gs[i]? = some (some r)) :
    (gs.set i none)[i]? = some none := by
  induction gs generalizing i with
  | nil => simp at h
  | cons a gs ih =>
    cases i with
    | zero => simp
    | succ i =>
      simp at h ⊢
      exact ih i h

theorem filterMap_id_nodup_get (gs : List (Option Resource))
    (hnd : (gs.filterMap id).Nodup) :
    ∀ (i j : Nat) (r : Resource), i ≠ j → gs[i]? = some (some r) →
      gs[j]? = some (some r) → False := by
  induction gs with
  | nil => intro i j r _ hi _; simp at hi
  | cons a gs ih =>
    intro i j r hij hi hj
    have hgs : (gs.filterMap id).Nodup := by
      cases a with
      | none => simpa using hnd
      | some b => exact (List.nodup_cons.mp (by simpa using hnd)).2
    cases i with
    | zero =>
      cases j with
      | zero => exact hij rfl
      | succ j =>
        simp at hi hj
        subst hi
        have hmem : r ∈ gs.filterMap id :=
          List.mem_filterMap.mpr ⟨some r, List.getElem?_mem hj, rfl⟩
        have hnotm : r ∉ gs.filterMap id :=
          (List.nodup_cons.mp (by simpa using hnd)).1
        exact hnotm hmem
    | succ i =>
      cases j with
      | zero =>
        simp at hi hj
        subst hj
        have hmem : r ∈ gs.filterMap id :=
          List.mem_filterMap.mpr ⟨some r, List.getElem?_mem hi, rfl⟩
        have hnotm : r ∉ gs.filterMap id :=
          (List.nodup_cons.mp (by simpa using hnd)).1
        exact hnotm hmem
      | succ j =>
        simp at hi hj
        exact ih hgs i j r (fun h => hij (by simp [h])) hi hj

theorem step_perm (s : PoolSys) (o : Op) :
    ((step s o).queue ++ held (step s o)).Perm
      ((s.queue ++ held s) ++ addedOf [o]) := by
  cases o with
  | add r =>
    simp only [step, held, addedOf, add, List.filterMap]
    have h1 : (s.queue ++ [r]) ++ s.guards.filterMap id
        = s.queue ++ ([r] ++ s.guards.filterMap id) := by
      simp [List.append_assoc]
    have h2 : List.Perm (s.queue ++ ([r] ++ s.guards.filterMap id))
        (s.queue ++ (s.guards.filterMap id ++ [r])) :=
      List.Perm.append_left _ List.perm_append_comm
    have h3 : s.queue ++ (s.guards.filterMap id ++ [r])
        = (s.queue ++ s.guards.filterMap id) ++ [r] := by
      simp [List.append_assoc]
    exact (h1 ▸ h2).trans (h3 ▸ List.Perm.refl _)
  | rsvp =>
    cases hq : s.queue with
    | nil => simp [step, rsvp, held, addedOf, hq]
    | cons r rest =>
      simp only [step, rsvp, held, addedOf, hq, List.filterMap_append]
      have h1 : rest ++ (s.guards.filterMap id ++ [some r].filterMap id)
          = (rest ++ s.guards.filterMap id) ++ [r] := by
        simp [List.append_assoc]
      have h2 : List.Perm ((rest ++ s.guards.filterMap id) ++ [r])
          ([r] ++ (rest ++ s.guards.filterMap id)) :=
        List.perm_append_comm
      have h3 : [r] ++ (rest ++ s.guards.filterMap id)
          = ((r :: rest) ++ s.guards.filterMap id) ++ [] := by simp
      exact h1 ▸ (h3 ▸ h2)
  | drop i =>
    cases hg : s.guards[i]? with
    | none => simp [step, held, addedOf, hg]
    | some oa =>
      cases oa with
      | none => simp [step, held, addedOf, hg]
      | some r =>
        simp only [step, held, addedOf, hg, add]
        have h1 : (s.queue ++ [r]) ++ (s.guards.set i none).filterMap id
            = s.queue ++ (r :: (s.guards.set i none).filterMap id) := by
          simp [List.append_assoc]
        have h2 : List.Perm
            (s.queue ++ (r :: (s.guards.set i none).filterMap id))
            (s.queue ++ s.guards.filterMap id) :=
          List.Perm.append_left _ (held_set_none s.guards i r hg)
        have h3 : s.queue ++ s.guards.filterMap id
            = (s.queue ++ s.guards.filterMap id) ++ [] := by simp
        exact h1 ▸ (h3 ▸ h2)

theorem addedOf_cons (o : Op) (ops : List Op) :
    addedOf (o :: ops) = addedOf [o] ++ addedOf ops := by
  cases o <;> simp [addedOf]

theorem runFrom_perm (ops : List Op) (s : PoolSys) :
    ((runFrom s ops).queue ++ held (runFrom s ops)).Perm
      ((s.queue ++ held s) ++ addedOf ops) := by
  induction ops generalizing s with
  | nil => simp [runFrom, addedOf]
  | cons o ops ih =>
    have h1 := ih (step s o)
    have h2 := (step_perm s o).append_right (addedOf ops)
    have hrw : runFrom s (o :: ops) = runFrom (step s o) ops := by
      simp [runFrom]
    rw [hrw, addedOf_cons]
    have h3 : ((s.queue ++ held s) ++ addedOf [o]) ++ addedOf ops
        = (s.queue ++ held s) ++ (addedOf [o] ++ addedOf ops) := by
      simp [List.append_assoc]
    exact (h1.trans h2).trans (h3 ▸ List.Perm.refl _)

/-! ### Claims -/

/-- C1: Conservation — after any sequence of `add`, served reserves and
guard drops on a pool seeded via `new_with`, the queue contents together
with the resources held by live guards are a permutation of everything
ever added, so in particular
`count(available) + count(outstanding) = total added`; the pool neither
destroys nor duplicates a resource. -/
theorem conservation (initial : List Resource) (ops : List Op) :
    ((run initial ops).queue ++ held (run initial ops)).Perm
      (initial ++ addedOf ops)
    ∧ (run initial ops).queue.length + (held (run initial ops)).length
      = initial.length + (addedOf ops).length := by
  have h : ((run initial ops).queue ++ held (run initial ops)).Perm
      (initial ++ addedOf ops) := by
    have h0 := runFrom_perm ops { queue := new_with initial, guards := [] }
    simpa [run, held, new_with_eq] using h0
  refine ⟨h, ?_⟩
  have hl := h.length_eq
  simpa [List.length_append] using hl

/-- C2: Exclusivity — when the resources fed to the pool are pairwise
distinct instances, no two live guards ever hold the same resource (the
held list is duplicate-free, and two distinct guard slots never carry the
same live resource); moreover a served reserve removes exactly the front
item from the queue and hands it to exactly one fresh guard. -/
theorem exclusivity (initial : List Resource) (ops : List Op)
    (hnd : (initial ++ addedOf ops).Nodup) :
    (held (run initial ops)).Nodup
    ∧ (∀ (i j : Nat) (r : Resource), i ≠ j →
        (run initial ops).guards[i]? = some (some r) →
        (run initial ops).guards[j]? = some (some r) → False)
    ∧ (∀ (r : Resource) (rest : List Resource),
        (run initial ops).queue = r :: rest →
        step (run initial ops) Op.rsvp
          = { queue := rest, guards := (run initial ops).guards ++ [some r] }) := by
  have hperm : ((run initial ops).queue ++ held (run initial ops)).Perm
      (initial ++ addedOf ops) := by
    have h0 := runFrom_perm ops { queue := new_with initial, guards := [] }
    simpa [run, held, new_with_eq] using h0
  have hnd2 : ((run initial ops).queue ++ held (run initial ops)).Nodup :=
    hperm.symm.nodup hnd
  have hheld : (held (run initial ops)).Nodup := hnd2.of_append_right
  refine ⟨hheld, filterMap_id_nodup_get _ hheld, ?_⟩
  intro r rest hq
  simp [step, rsvp, hq]

/-- C2 witness: the exclusivity theorem applied to the pool seeded with
the distinct resources 0 and 1, both reserved. -/
theorem exclusivity_witness :
    (held (run [0, 1] [Op.rsvp, Op.rsvp])).Nodup :=
  (exclusivity [0, 1] [Op.rsvp, Op.rsvp] (by decide)).1

/-- C3: No double-release — dropping the same guard a second time changes
nothing (the slot was emptied by `Option::take`, so nothing is pushed
again), and dropping a guard whose slot is already empty is a no-op. -/
theorem no_double_release (s : PoolSys) (i : Nat) :
    step (step s (Op.drop i)) (Op.drop i) = step s (Op.drop i)
    ∧ (s.guards[i]? = some none → step s (Op.drop i) = s) := by
  constructor
  · cases hg : s.guards[i]? with
    | none => simp [step, hg]
    | some oa =>
      cases oa with
      | none => simp [step, hg]
      | some r =>
        have h2 := getElem?_set_none s.guards i r hg
        simp [step, hg, h2]
  · intro h
    simp [step, h]

/-- C3 witness: the no-double-release theorem at a concrete one-guard
state. -/
theorem no_double_release_witness :
    step (step { queue := [], guards := [some 4] } (Op.drop 0)) (Op.drop 0)
      = step { queue := [], guards := [some 4] } (Op.drop 0) :=
  (no_double_release { queue := [], guards := [some 4] } 0).1

/-- C4: Return-on-drop — dropping a guard that still holds resource `r`
pushes `r` at the back of its pool's queue exactly once (`r` gains exactly
one occurrence), empties the guard's slot, and the resource is obtained
again by a subsequent reserve (the next `|queue| + 1` reserves serve the
whole queue, ending with `r`). -/
theorem return_on_drop (s : PoolSys) (i : Nat) (r : Resource)
    (h : s.guards[i]? = some (some r)) :
    (step s (Op.drop i)).queue = s.queue ++ [r]
    ∧ (step s (Op.drop i)).queue.count r = s.queue.count r + 1
    ∧ (step s (Op.drop i)).guards = s.guards.set i none
    ∧ (rsvpN (s.queue.length + 1) (step s (Op.drop i)).queue).1
      = s.queue ++ [r] := by
  have hq : (step s (Op.drop i)).queue = s.queue ++ [r] := by
    simp [step, h, add]
  refine ⟨hq, ?_, ?_, ?_⟩
  · rw [hq]
    simp
  · simp [step, h]
  · rw [hq, rsvpN_take_drop]
    have hl : s.queue.length + 1 = (s.queue ++ [r]).length := by simp
    rw [hl, List.take_length]

/-- C4 witness: dropping the guard holding 4 over the queue `[9]` yields
the queue `[9, 4]`. -/
theorem return_on_drop_witness :
    (step { queue := [9], guards := [some 4] } (Op.drop 0)).queue = [9] ++ [4] :=
  (return_on_drop { queue := [9], guards := [some 4] } 0 4 (by decide)).1

/-- C5: FIFO serving order — `new_with` enqueues its input in order, so a
pool seeded with `a :: b :: rest` serves `a` on the first reserve and `b`
on the second, and in general `n` sequential uncontended reserves obtain
exactly the first `n` seeded elements in order. -/
theorem fifo_order (a b : Resource) (rest : List Resource) :
    new_with (a :: b :: rest) = a :: b :: rest
    ∧ rsvp (new_with (a :: b :: rest)) = some ({ inner := some a }, b :: rest)
    ∧ rsvp (b :: rest) = some ({ inner := some b }, rest)
    ∧ (∀ n : Nat, rsvpN n (new_with (a :: b :: rest))
        = ((a :: b :: rest).take n, (a :: b :: rest).drop n)) := by
  refine ⟨new_with_eq _, ?_, rfl, ?_⟩
  · rw [new_with_eq]
    rfl
  · intro n
    rw [new_with_eq]
    exact rsvpN_take_drop n _

/-- C6 counterexample: one reserve-then-release round trip on the pool
`[0, 1]` yields `[1, 0]`, not the original order `[0, 1]` — the released
resource goes to the back of the queue, so the available list is not left
unchanged. -/
theorem round_trip_counterexample :
    roundTrip [0, 1] = [1, 0] ∧ roundTrip [0, 1] ≠ [0, 1] := by decide

/-- C6 (amended): `n` reserve-then-release round trips keep exactly the
same elements — the result is a permutation of the original queue —
but rotate the queue left by one position per round trip; the original
order is restored when the number of round trips is a multiple of the
queue length, not after an arbitrary number of round trips. -/
theorem round_trip_rotate (n : Nat) (q : List Resource) :
    roundTripN n q = q.rotate n
    ∧ (roundTripN n q).Perm q
    ∧ roundTripN (q.length * n) q = q := by
  refine ⟨roundTripN_eq_rotate n q, ?_, ?_⟩
  · rw [roundTripN_eq_rotate]
    exact List.rotate_perm q n
  · rw [roundTripN_eq_rotate]
    exact List.rotate_length_mul q n

/-- C7: Reserve never fails — while the pool is alive it owns a sender,
so at least one sender exists and polling `rx.next()` can never yield the
closed/`None` outcome (the `unwrap` in `rsvp` is unreachable): a reserve
either dequeues the front item into a fresh guard or stays pending. -/
theorem rsvp_never_fails (q : List Resource) (senders : Nat)
    (h : 1 ≤ senders) :
    stream_next q senders ≠ PollNext.closed
    ∧ (∀ (r : Resource) (rest : List Resource), q = r :: rest →
        stream_next q senders = PollNext.ready r rest
        ∧ rsvp q = some ({ inner := some r }, rest))
    ∧ (q = [] → stream_next q senders = PollNext.pending ∧ rsvp q = none) := by
  have hs : senders ≠ 0 := by omega
  refine ⟨?_, ?_, ?_⟩
  · cases q with
    | nil => simp [stream_next, hs]
    | cons r rest => simp [stream_next]
  · intro r rest hq
    subst hq
    exact ⟨rfl, rfl⟩
  · intro hq
    subst hq
    simp [stream_next, rsvp, hs]

/-- C7 witness: with one live sender and an empty buffer the poll is
pending, never closed. -/
theorem rsvp_never_fails_witness :
    stream_next [] 1 ≠ PollNext.closed ∧ stream_next [] 1 = PollNext.pending :=
  ⟨(rsvp_never_fails [] 1 (by decide)).1,
    ((rsvp_never_fails [] 1 (by decide)).2.2 rfl).1⟩

/-- C8: Release into a dead pool fails fatally — the guard's drop panics
(with the source's message) exactly when the receiving pool is gone and
the guard still holds a resource; whenever the pool is alive the push
back always succeeds. -/
theorem release_dead_pool (alive : Bool) (g : AsyncPoolGuard)
    (q : List Resource) :
    ((∃ e, guard_drop alive g q = .error e)
      ↔ (alive = false ∧ g.inner ≠ none))
    ∧ (∀ r : Resource, g.inner = some r → alive = false →
        guard_drop alive g q = .error "Pool was dropped before guard")
    ∧ (alive = true → ∃ g2 q2, guard_drop alive g q = .ok (g2, q2)) := by
  cases g with
  | mk inner =>
    cases inner <;> cases alive <;>
      simp [guard_drop, unbounded_send]

/-- C8 witness: releasing a held resource into a dead pool panics with the
source's message. -/
theorem release_dead_pool_witness :
    guard_drop false { inner := some 3 } []
      = Except.error "Pool was dropped before guard" :=
  (release_dead_pool false { inner := some 3 } []).2.1 3 rfl rfl

/-- C9: Use-after-release is fatal — while the guard holds a resource both
deref paths return it, and they panic (with the source's message) exactly
when the inner slot has already been emptied by a release. -/
theorem deref_after_release (g : AsyncPoolGuard) :
    (∀ r : Resource, g.inner = some r →
      deref g = .ok r ∧ deref_mut g = .ok r)
    ∧ ((∃ e, deref g = .error e) ↔ g.inner = none)
    ∧ ((∃ e, deref_mut g = .error e) ↔ g.inner = none)
    ∧ (g.inner = none →
        deref g = .error "Inner value dropped while Guard was active"
        ∧ deref_mut g = .error "Inner value dropped while Guard was active") := by
  cases g with
  | mk inner =>
    cases inner <;> simp [deref, deref_mut]

/-- C9 witness: a guard holding 7 dereferences to 7. -/
theorem deref_after_release_witness :
    deref { inner := some 7 } = Except.ok 7 :=
  ((deref_after_release { inner := some 7 }).1 7 rfl).1

/-- C10: Release enqueues at the back — dropping a guard holding `g` over
the queue `q` produces exactly `q ++ [g]`, so the next `|q|` reserves
serve all of `q` in order before `g` is served again, and the
`|q| + 1`-th reserve obtains `g`. -/
theorem release_enqueues_at_back (q : List Resource) (g : Resource) :
    guard_drop true { inner := some g } q
      = .ok ({ inner := none }, q ++ [g])
    ∧ (rsvpN q.length (q ++ [g])).1 = q
    ∧ (rsvpN q.length (q ++ [g])).2 = [g]
    ∧ rsvpN (q.length + 1) (q ++ [g]) = (q ++ [g], []) := by
  refine ⟨?_, ?_, ?_, ?_⟩
  · simp [guard_drop, unbounded_send]
  · rw [rsvpN_take_drop]
    simp [List.take_left]
  · rw [rsvpN_take_drop]
    simp [List.drop_left]
  · rw [rsvpN_take_drop]
    have hl : q.length + 1 = (q ++ [g]).length := by simp
    rw [hl, List.take_length, List.drop_length]

end AsyncPool
